import Mathlib

/-!
Verification of the `simple-eyre` error-report renderer (`Context::debug` in
`src/lib.rs`) against its natural-language specification.

The embedding models an error value (`dyn Error`) as a finite chain of
display/debug texts linked by `source` pointers, the `eyre::Chain` iterator
and the `indenter` indented writer (both external crates whose internals are
not in this repository's sources) are modelled from the spec, and the
renderer `Context::debug` is translated from `src/lib.rs` lines 36-63.
-/

/-- An error value as consumed by the renderer: it can render its own display
text, expose a raw structural (debug) representation, and optionally expose a
single direct cause (`leaf` has none, `node` has one).  The inductive shape
makes cause links finite and acyclic, matching the spec's chain invariant. -/
inductive ErrVal where
  | leaf (display debugRepr : String)
  | node (display debugRepr : String) (cause : ErrVal)
deriving DecidableEq, Repr

/-- The error's display text (Rust `Display`, used by `write!(f, "\x7b\x7d", error)`). -/
def ErrVal.display : ErrVal → String
  | .leaf d _ => d
  | .node d _ _ => d

/-- The error's raw structural representation (Rust `Debug::fmt`). -/
def ErrVal.debugRepr : ErrVal → String
  | .leaf _ r => r
  | .node _ r _ => r

/-- The error's optional direct cause (Rust `Error::source`). -/
def ErrVal.source : ErrVal → Option ErrVal
  | .leaf _ _ => none
  | .node _ _ c => some c

/-- Split a character list at newline characters; total and structural, the
embedding of splitting a text into lines (Rust `str::split('\n')`). -/
def splitLinesChars : List Char → List (List Char)
  | [] => [[]]
  | c :: rest =>
    if c = '\n' then [] :: splitLinesChars rest
    else
      match splitLinesChars rest with
      | [] => [[c]]
      | l :: ls => (c :: l) :: ls

/-- The lines of a string, splitting at every newline. -/
def lines (s : String) : List String :=
  (splitLinesChars s.data).map (fun l => String.mk l)

/-- Join lines back with newline separators. -/
def joinLines : List String → String
  | [] => ""
  | [l] => l
  | l :: (m :: rest) => l ++ "\n" ++ joinLines (m :: rest)

/-- Sequential concatenation of the written chunks. -/
def strJoin : List String → String
  | [] => ""
  | s :: rest => s ++ strJoin rest

/-- A run of `k` space characters. -/
def spaces (k : Nat) : String := String.mk (List.replicate k ' ')

/-- The numeric label put before the first line of chain element `n`. -/
def numLabel (n : Nat) : String := toString n ++ ": "

/-- Prefix the first line with `fp` and every continuation line with `cp`. -/
def indentLines (fp cp : String) : List String → List String
  | [] => []
  | l :: rest => (fp ++ l) :: rest.map (fun t => cp ++ t)

/-- Modelled from the spec: the `indenter` crate's indented writer, which is
not part of this repository's sources.  Per spec section 4.2 step 6, writing a
text through an indentation context translates every newline into newline plus
an indent: the first line is prefixed with `fp` and every continuation
line with `cp`. -/
def indentWith (fp cp : String) (s : String) : String :=
  joinLines (indentLines fp cp (lines s))

/-- Modelled from the spec: a numbered indentation context (`indented(f).ind(n)`).
The first line of the text carries the numeric label and continuation lines
are prefixed with spaces equal in width to that label, so they align under the
cause's text, not under its label. -/
def numberedBlock (n : Nat) (s : String) : String :=
  indentWith (numLabel n) (spaces (numLabel n).length) s

/-- Modelled from the spec: the unnumbered indentation context (`indented(f)`),
prefixing every line with the fixed four-space indent. -/
def plainBlock (s : String) : String :=
  indentWith (spaces 4) (spaces 4) s

/-- Modelled from the spec: `eyre::Chain::new(cause)` (the Chain Walker), not
part of this repository's sources.  It yields `cause` itself and then
repeatedly follows direct-cause links until an element with no cause. -/
def chainNew : ErrVal → List ErrVal
  | .leaf d r => [.leaf d r]
  | .node d r c => .node d r c :: chainNew c

/-- The numbering decision of `Context::debug` (src/lib.rs line 51):
`let multiple = cause.source().is_some()`. -/
def multipleFlag (cause : ErrVal) : Bool := cause.source.isSome

/-- The text written for one chain element inside the loop of `Context::debug`
(src/lib.rs lines 54-58): through the numbered context when `multiple`, else
through the plain four-space context. -/
def elemBody (cause : ErrVal) (p : Nat × ErrVal) : String :=
  if multipleFlag cause then numberedBlock p.1 p.2.display else plainBlock p.2.display

/-- The renderer `Context::debug` (src/lib.rs lines 36-63) as a pure function
from the mode flag and the error to the full written output.  Alternate mode short-circuits
to the raw debug representation; otherwise the display text is written, and if
a cause exists, the header and each chain element preceded by one newline. -/
def render (alternate : Bool) (e : ErrVal) : String :=
  if alternate then
    e.debugRepr
  else
    e.display ++
      match e.source with
      | none => ""
      | some cause =>
        "\n\nCaused by:" ++
          strJoin ((chainNew cause).enum.map (fun p => "\n" ++ elemBody cause p))

/-- Modelled from the spec: the Chain Walker contract of spec section 4.1,
`walk(start)`: the causal predecessors of `start`, excluding `start` itself,
obtained by repeatedly following direct-cause links; empty when `start` has no
direct cause.  Stated from the spec's words to be compared with the chain the
renderer actually writes. -/
def walkSpec : ErrVal → List ErrVal
  | .leaf _ _ => []
  | .node _ _ c => c :: walkSpec c

/-- An output sink accepting sequential text writes (the Rust `Formatter`'s
underlying writer): the text written so far, a running count of write
operations, an optional index of the write operation at which the sink fails,
and the sink's own error value surfaced on failure. -/
structure Sink (ε : Type) where
  out : String
  count : Nat
  failAt : Option Nat
  errVal : ε

/-- One sequential write: fails with the sink's error value (paired with the
output written so far) exactly when the fail index equals the current write
count, and otherwise appends the chunk. -/
def Sink.write {ε : Type} (sk : Sink ε) (s : String) : Except (ε × String) (Sink ε) :=
  if sk.failAt = some sk.count then Except.error (sk.errVal, sk.out)
  else Except.ok { sk with out := sk.out ++ s, count := sk.count + 1 }

/-- The cause loop of `Context::debug` (src/lib.rs lines 52-59) against a
fallible sink: for each enumerated chain element, write one newline, then the
element's display text through its indentation context; the first write
failure is returned unchanged and stops the loop. -/
def renderLoop {ε : Type} (cause : ErrVal) :
    List (Nat × ErrVal) → Sink ε → Except (ε × String) (Sink ε)
  | [], sk => Except.ok sk
  | p :: rest, sk =>
    match Sink.write sk "\n" with
    | Except.error x => Except.error x
    | Except.ok sk1 =>
      match Sink.write sk1 (elemBody cause p) with
      | Except.error x => Except.error x
      | Except.ok sk2 => renderLoop cause rest sk2

/-- The renderer `Context::debug` (src/lib.rs lines 36-63) against a fallible
sink, mirroring the `?`-propagation of the Rust code: every write may fail,
and the first failure is returned unchanged with no further writes. -/
def renderSink {ε : Type} (alternate : Bool) (e : ErrVal) (sk : Sink ε) :
    Except (ε × String) (Sink ε) :=
  if alternate then
    Sink.write sk e.debugRepr
  else
    match Sink.write sk e.display with
    | Except.error x => Except.error x
    | Except.ok sk1 =>
      match e.source with
      | none => Except.ok sk1
      | some cause =>
        match Sink.write sk1 "\n\nCaused by:" with
        | Except.error x => Except.error x
        | Except.ok sk2 => renderLoop cause (chainNew cause).enum sk2

/-- The chunks written by the cause loop, in order. -/
def loopChunks (cause : ErrVal) : List (Nat × ErrVal) → List String
  | [] => []
  | p :: rest => "\n" :: elemBody cause p :: loopChunks cause rest

/-- The chunks written by one render call, in order. -/
def writeChunks (alternate : Bool) (e : ErrVal) : List String :=
  if alternate then [e.debugRepr]
  else
    e.display ::
      match e.source with
      | none => []
      | some cause => "\n\nCaused by:" :: loopChunks cause (chainNew cause).enum

/-- Write a list of chunks sequentially, stopping at the first failure. -/
def processChunks {ε : Type} : List String → Sink ε → Except (ε × String) (Sink ε)
  | [], sk => Except.ok sk
  | s :: rest, sk =>
    match Sink.write sk s with
    | Except.error x => Except.error x
    | Except.ok sk1 => processChunks rest sk1

/-! ### Helper lemmas -/

theorem chainNew_ne_nil (c : ErrVal) : chainNew c ≠ [] := by
  cases c <;> simp [chainNew]

theorem chainNew_eq_cons_walkSpec (c : ErrVal) : chainNew c = c :: walkSpec c := by
  induction c with
  | leaf d r => simp [chainNew, walkSpec]
  | node d r c ih => simp [chainNew, walkSpec, ih]

theorem length_chainNew_pos (c : ErrVal) : 1 ≤ (chainNew c).length := by
  cases c <;> simp [chainNew]

theorem two_le_length_chainNew_iff (c : ErrVal) :
    2 ≤ (chainNew c).length ↔ multipleFlag c = true := by
  cases c with
  | leaf d r => simp [chainNew, multipleFlag, ErrVal.source]
  | node d r c' =>
    simp only [chainNew, multipleFlag, ErrVal.source, Option.isSome_some, List.length_cons,
      iff_true]
    have := length_chainNew_pos c'
    omega

theorem strJoin_append (l1 l2 : List String) :
    strJoin (l1 ++ l2) = strJoin l1 ++ strJoin l2 := by
  induction l1 with
  | nil => simp [strJoin, String.empty_append]
  | cons s rest ih => simp [strJoin, ih, String.append_assoc]

theorem strJoin_loopChunks (cause : ErrVal) (l : List (Nat × ErrVal)) :
    strJoin (loopChunks cause l) = strJoin (l.map (fun p => "\n" ++ elemBody cause p)) := by
  induction l with
  | nil => rfl
  | cons p rest ih => simp [loopChunks, strJoin, ih, String.append_assoc]

theorem renderLoop_eq_processChunks {ε : Type} (cause : ErrVal)
    (l : List (Nat × ErrVal)) : ∀ (sk : Sink ε),
    renderLoop cause l sk = processChunks (loopChunks cause l) sk := by
  induction l with
  | nil => intro sk; rfl
  | cons p rest ih =>
    intro sk
    simp only [renderLoop, loopChunks, processChunks]
    cases h : Sink.write sk "\n" with
    | error x => rfl
    | ok sk1 =>
      simp only [processChunks]
      cases h2 : Sink.write sk1 (elemBody cause p) with
      | error x => rfl
      | ok sk2 => exact ih sk2

theorem renderSink_eq_processChunks {ε : Type} (alternate : Bool) (e : ErrVal) (sk : Sink ε) :
    renderSink alternate e sk = processChunks (writeChunks alternate e) sk := by
  cases alternate with
  | true =>
    simp only [renderSink, writeChunks, if_true, processChunks]
    cases h : Sink.write sk e.debugRepr with
    | error x => rfl
    | ok sk1 => rfl
  | false =>
    simp only [renderSink, writeChunks, if_false, processChunks]
    cases h : Sink.write sk e.display with
    | error x => rfl
    | ok sk1 =>
      cases hs : e.source with
      | none => rfl
      | some cause =>
        simp only [processChunks]
        cases h2 : Sink.write sk1 "\n\nCaused by:" with
        | error x => rfl
        | ok sk2 => exact renderLoop_eq_processChunks cause (chainNew cause).enum sk2

theorem strJoin_writeChunks (alternate : Bool) (e : ErrVal) :
    strJoin (writeChunks alternate e) = render alternate e := by
  cases alternate with
  | true => simp [writeChunks, strJoin, render, String.append_empty]
  | false =>
    simp only [writeChunks, render, if_false]
    cases h : e.source with
    | none => simp [strJoin, String.append_empty]
    | some cause => simp [strJoin, strJoin_loopChunks, String.append_assoc]

theorem processChunks_ok {ε : Type} (l : List String) : ∀ (sk : Sink ε),
    sk.failAt = none →
    processChunks l sk =
      Except.ok ⟨sk.out ++ strJoin l, sk.count + l.length, none, sk.errVal⟩ := by
  induction l with
  | nil =>
    intro sk h
    obtain ⟨o, c, f, v⟩ := sk
    simp only at h
    subst h
    simp [processChunks, strJoin, String.append_empty]
  | cons s rest ih =>
    intro sk h
    have hne : ¬ sk.failAt = some sk.count := by simp [h]
    simp only [processChunks, Sink.write, if_neg hne]
    rw [ih _ (by simp [h])]
    simp [strJoin, Except.ok.injEq, Sink.mk.injEq, String.append_assoc, List.length_cons]
    omega

theorem processChunks_error {ε : Type} (l : List String) : ∀ (sk : Sink ε)
    (v : ε) (p : String), processChunks l sk = Except.error (v, p) →
    v = sk.errVal ∧ ∃ j, p = sk.out ++ strJoin (List.take j l) := by
  induction l with
  | nil => intro sk v p herr; simp [processChunks] at herr
  | cons s rest ih =>
    intro sk v p herr
    simp only [processChunks, Sink.write] at herr
    by_cases hf : sk.failAt = some sk.count
    · rw [if_pos hf] at herr
      simp only [Except.error.injEq, Prod.mk.injEq] at herr
      refine ⟨herr.1.symm, 0, ?_⟩
      simp [herr.2, strJoin, String.append_empty]
    · rw [if_neg hf] at herr
      obtain ⟨hv, j, hp⟩ := ih _ _ _ herr
      refine ⟨hv, j + 1, ?_⟩
      simp only at hp
      simp [hp, List.take, strJoin, String.append_assoc]

theorem splitLinesChars_ne_nil : ∀ (l : List Char), splitLinesChars l ≠ [] := by
  intro l
  induction l with
  | nil => simp [splitLinesChars]
  | cons c rest ih =>
    simp only [splitLinesChars]
    by_cases hc : c = '\n'
    · simp [hc]
    · rw [if_neg hc]
      cases h : splitLinesChars rest <;> simp

theorem lines_ne_nil (s : String) : lines s ≠ [] := by
  simp only [lines, ne_eq, List.map_eq_nil_iff]
  exact splitLinesChars_ne_nil s.data

theorem splitLinesChars_no_newline : ∀ (l : List Char), '\n' ∉ l →
    splitLinesChars l = [l] := by
  intro l
  induction l with
  | nil => intro _; rfl
  | cons c rest ih =>
    intro h
    simp only [List.mem_cons, not_or] at h
    have hcn : ¬ (c = '\n') := fun hc => h.1 hc.symm
    simp [splitLinesChars, hcn, ih h.2]

theorem lines_no_newline (s : String) (h : '\n' ∉ s.data) : lines s = [s] := by
  simp [lines, splitLinesChars_no_newline s.data h]

theorem splitLinesChars_append_newline : ∀ (a b : List Char), '\n' ∉ a →
    splitLinesChars (a ++ '\n' :: b) = a :: splitLinesChars b := by
  intro a b
  induction a with
  | nil => intro _; simp [splitLinesChars]
  | cons c rest ih =>
    intro h
    simp only [List.mem_cons, not_or] at h
    have hcn : ¬ (c = '\n') := fun hc => h.1 hc.symm
    simp [List.cons_append, splitLinesChars, hcn, ih h.2]

theorem lines_append_newline (a b : String) (h : '\n' ∉ a.data) :
    lines (a ++ "\n" ++ b) = a :: lines b := by
  have hd : (a ++ "\n" ++ b).data = a.data ++ '\n' :: b.data := by
    simp [String.data_append]
  simp only [lines, hd, splitLinesChars_append_newline a.data b.data h, List.map_cons]

theorem joinLines_cons (l : String) (rest : List String) (h : rest ≠ []) :
    joinLines (l :: rest) = l ++ "\n" ++ joinLines rest := by
  cases rest with
  | nil => exact absurd rfl h
  | cons m rest' => rfl

theorem indentLines_same (cp : String) (ls : List String) :
    indentLines cp cp ls = ls.map (fun t => cp ++ t) := by
  cases ls <;> rfl

theorem indentWith_no_newline (fp cp s : String) (h : '\n' ∉ s.data) :
    indentWith fp cp s = fp ++ s := by
  simp [indentWith, lines_no_newline s h, indentLines, joinLines]

theorem indentWith_split (fp cp a b : String) (h : '\n' ∉ a.data) :
    indentWith fp cp (a ++ "\n" ++ b) = fp ++ a ++ "\n" ++ indentWith cp cp b := by
  have hmap : indentLines fp cp (a :: lines b)
      = (fp ++ a) :: indentLines cp cp (lines b) := by
    rw [indentLines_same]
    rfl
  have hne : indentLines cp cp (lines b) ≠ [] := by
    rw [indentLines_same]
    simp only [ne_eq, List.map_eq_nil_iff]
    exact lines_ne_nil b
  rw [indentWith, lines_append_newline a b h, hmap, joinLines_cons _ _ hne]
  rfl

/-- The last line of a string (the suffix after its final newline). -/
def lastLine (s : String) : String := ((lines s).getLast?).getD ""

theorem joinLines_indentLines_last (cp : String) : ∀ (ls : List String) (fp : String),
    ls ≠ [] → ∃ t, joinLines (indentLines fp cp ls) = t ++ ((ls.getLast?).getD "") := by
  intro ls
  induction ls with
  | nil => intro fp h; exact absurd rfl h
  | cons l rest ih =>
    intro fp _
    cases rest with
    | nil => exact ⟨fp, rfl⟩
    | cons m rest' =>
      have hmap : indentLines fp cp (l :: m :: rest')
          = (fp ++ l) :: indentLines cp cp (m :: rest') := by
        simp [indentLines, indentLines_same]
      have hne : indentLines cp cp (m :: rest') ≠ [] := by
        simp [indentLines]
      obtain ⟨t', ht'⟩ := ih cp (by simp)
      refine ⟨(fp ++ l) ++ "\n" ++ t', ?_⟩
      rw [hmap, joinLines_cons _ _ hne, ht', List.getLast?_cons_cons]
      simp [String.append_assoc]

theorem indentWith_ends_with_lastLine (fp cp s : String) :
    ∃ t, indentWith fp cp s = t ++ lastLine s := by
  exact joinLines_indentLines_last cp (lines s) fp (lines_ne_nil s)

theorem strJoin_enumFrom_last {α : Type} (f : Nat × α → String) :
    ∀ (l : List α) (i : Nat), l ≠ [] →
    ∃ pre lst, l.getLast? = some lst ∧
      strJoin ((List.enumFrom i l).map f) = pre ++ f (i + l.length - 1, lst) := by
  intro l
  induction l with
  | nil => intro i h; exact absurd rfl h
  | cons x rest ih =>
    intro i _
    cases rest with
    | nil =>
      refine ⟨"", x, by simp, ?_⟩
      simp [List.enumFrom, strJoin, String.append_empty, String.empty_append]
    | cons m rest' =>
      obtain ⟨pre', lst, hlst, hpre'⟩ := ih (i + 1) (by simp)
      refine ⟨f (i, x) ++ pre', lst, ?_, ?_⟩
      · rw [List.getLast?_cons_cons]
        exact hlst
      · have harith : i + 1 + (m :: rest').length - 1 = i + (x :: m :: rest').length - 1 := by
          simp
          omega
        rw [harith] at hpre'
        simp only [List.enumFrom, List.map_cons, strJoin] at hpre' ⊢
        rw [hpre', String.append_assoc]

theorem lastLine_no_newline (s : String) (h : '\n' ∉ s.data) : lastLine s = s := by
  simp [lastLine, lines_no_newline s h]

theorem strJoin_enum_last {α : Type} (f : Nat × α → String) (l : List α) (h : l ≠ []) :
    ∃ pre lst, l.getLast? = some lst ∧
      strJoin (l.enum.map f) = pre ++ f (l.length - 1, lst) := by
  obtain ⟨pre, lst, h1, h2⟩ := strJoin_enumFrom_last f l 0 h
  exact ⟨pre, lst, h1, by simpa [List.enum] using h2⟩

theorem render_none (e : ErrVal) (h : e.source = none) : render false e = e.display := by
  simp [render, h, String.append_empty]

theorem render_some (e c : ErrVal) (h : e.source = some c) :
    render false e = e.display ++ ("\n\nCaused by:" ++
      strJoin ((chainNew c).enum.map (fun p => "\n" ++ elemBody c p))) := by
  simp [render, h]

/-! ### Claim theorems -/

/-- Claim C3, counterexample: with alternate mode on, the render of a
cause-less error whose debug representation differs from its display text is
the debug representation, not the display text, so the output does not equal
the display text regardless of mode. -/
theorem alternate_no_cause_output_ne_display :
    render true (ErrVal.leaf "a" "b") ≠ ErrVal.display (ErrVal.leaf "a" "b") := by
  decide

/-- Claim C3 (amended): for every error value with no direct cause, the
normal-mode render output equals exactly its display text with no `Caused by:`
section; in alternate mode the output is instead the error's raw debug
representation. -/
theorem no_cause_output_by_mode (e : ErrVal) (h : e.source = none) :
    render false e = e.display ∧ render true e = e.debugRepr := by
  exact ⟨render_none e h, by simp [render]⟩

theorem no_cause_output_by_mode_witness :
    render false (ErrVal.leaf "x" "y") = "x" ∧ render true (ErrVal.leaf "x" "y") = "y" := by
  have h := no_cause_output_by_mode (ErrVal.leaf "x" "y") rfl
  exact ⟨h.1.trans (by decide), h.2.trans (by decide)⟩

/-- Claim C5: with the alternate flag true the render bypasses all chain and
indentation logic and writes only the error's raw structural (debug)
representation unchanged, and the output is independent of the cause chain:
an error with a cause renders identically to the cause-less error with the
same debug representation, whatever the chain's length. -/
theorem alternate_mode_debug_passthrough (e : ErrVal) :
    render true e = e.debugRepr ∧
    (∀ d r c, render true (ErrVal.node d r c) = render true (ErrVal.leaf d r)) := by
  refine ⟨by simp [render], ?_⟩
  intro d r c
  simp [render, ErrVal.debugRepr]

/-- Claim C4: for every error with a non-empty cause chain the numbering
decision is the flag `multiple = cause.source().is_some()` computed from the
first chain element's own cause presence, it is on exactly when the visible
chain has depth at least 2 beyond the root, and the single flag governs the
indentation context of every element of the written chain. -/
theorem numbering_decided_once_from_first_cause (e c : ErrVal) (h : e.source = some c) :
    multipleFlag c = c.source.isSome ∧
    (multipleFlag c = true ↔ 2 ≤ (chainNew c).length) ∧
    render false e = e.display ++ ("\n\nCaused by:" ++
      strJoin ((chainNew c).enum.map (fun p =>
        "\n" ++ (if multipleFlag c then numberedBlock p.1 p.2.display
                 else plainBlock p.2.display)))) := by
  refine ⟨rfl, (two_le_length_chainNew_iff c).symm, ?_⟩
  have hr := render_some e c h
  simpa [elemBody] using hr

theorem numbering_decided_once_from_first_cause_witness :
    multipleFlag (ErrVal.node "a" "da" (ErrVal.leaf "b" "db")) = true ∧
    render false (ErrVal.node "r" "d" (ErrVal.node "a" "da" (ErrVal.leaf "b" "db")))
      = "r\n\nCaused by:\n0: a\n1: b" := by
  have h := numbering_decided_once_from_first_cause
    (ErrVal.node "r" "d" (ErrVal.node "a" "da" (ErrVal.leaf "b" "db")))
    (ErrVal.node "a" "da" (ErrVal.leaf "b" "db")) rfl
  exact ⟨by decide, h.2.2.trans (by decide)⟩

/-- Claim C9: two render calls on the same error and mode into two independent
non-failing sinks both succeed and produce byte-identical output; the renderer
is deterministic in its inputs and holds no state across calls. -/
theorem render_deterministic_across_sinks {ε1 ε2 : Type} (alternate : Bool) (e : ErrVal)
    (c1 c2 : Nat) (v1 : ε1) (v2 : ε2) :
    ∃ s1 s2, renderSink alternate e ⟨"", c1, none, v1⟩ = Except.ok s1 ∧
      renderSink alternate e ⟨"", c2, none, v2⟩ = Except.ok s2 ∧ s1.out = s2.out := by
  refine ⟨⟨"" ++ strJoin (writeChunks alternate e),
      c1 + (writeChunks alternate e).length, none, v1⟩,
    ⟨"" ++ strJoin (writeChunks alternate e),
      c2 + (writeChunks alternate e).length, none, v2⟩, ?_, ?_, rfl⟩
  · rw [renderSink_eq_processChunks]
    exact processChunks_ok _ _ rfl
  · rw [renderSink_eq_processChunks]
    exact processChunks_ok _ _ rfl

/-- Claim C2: for every error with exactly one cause that itself has no
further cause, the normal-mode output is the root's display text, a blank
line, the literal line `Caused by:`, then the cause's display text as one
non-numbered block in which every line, first and continuation alike, is
indented by the fixed four-space width. -/
theorem single_cause_unnumbered_block (e c : ErrVal) (h1 : e.source = some c)
    (h2 : c.source = none) :
    render false e
      = e.display ++ ("\n\nCaused by:" ++ ("\n" ++ plainBlock c.display)) ∧
    plainBlock c.display = joinLines ((lines c.display).map (fun t => spaces 4 ++ t)) := by
  constructor
  · have hchain : chainNew c = [c] := by
      cases c with
      | leaf d r => rfl
      | node d r c' => simp [ErrVal.source] at h2
    have hm : multipleFlag c = false := by
      simp [multipleFlag, h2]
    rw [render_some e c h1, hchain]
    simp [List.enum, List.enumFrom, strJoin, elemBody, hm, String.append_empty]
  · simp [plainBlock, indentWith, indentLines_same]

theorem single_cause_unnumbered_block_witness :
    render false (ErrVal.node "config invalid" "dr" (ErrVal.leaf "missing field" "dc"))
      = "config invalid\n\nCaused by:\n    missing field" := by
  have h := single_cause_unnumbered_block
    (ErrVal.node "config invalid" "dr" (ErrVal.leaf "missing field" "dc"))
    (ErrVal.leaf "missing field" "dc") rfl rfl
  exact h.1.trans (by decide)

/-- Claim C8: the sequence of elements written in the `Caused by:` section is
exactly the causal chain starting at the error's direct cause and following
direct-cause links until an element with no cause, excluding the starting
error itself and in causal order; it is empty, and no section is written at
all, when the error has no direct cause.  (The inductive error model makes
every cause chain acyclic.) -/
theorem written_chain_matches_walk (e : ErrVal) :
    (∀ c, e.source = some c → chainNew c = walkSpec e ∧
      render false e = e.display ++ ("\n\nCaused by:" ++
        strJoin ((walkSpec e).enum.map (fun p => "\n" ++ elemBody c p)))) ∧
    (e.source = none → walkSpec e = [] ∧ render false e = e.display) := by
  constructor
  · intro c h
    have hw : chainNew c = walkSpec e := by
      cases e with
      | leaf d r => simp [ErrVal.source] at h
      | node d r c' =>
        simp only [ErrVal.source, Option.some.injEq] at h
        subst h
        simp [walkSpec, chainNew_eq_cons_walkSpec]
    refine ⟨hw, ?_⟩
    rw [render_some e c h, hw]
  · intro h
    refine ⟨?_, render_none e h⟩
    cases e with
    | leaf d r => rfl
    | node d r c' => simp [ErrVal.source] at h

theorem written_chain_matches_walk_witness :
    chainNew (ErrVal.node "a" "da" (ErrVal.leaf "b" "db"))
      = walkSpec (ErrVal.node "r" "d" (ErrVal.node "a" "da" (ErrVal.leaf "b" "db"))) ∧
    walkSpec (ErrVal.leaf "x" "y") = [] ∧
    render false (ErrVal.leaf "x" "y") = "x" := by
  have h1 := (written_chain_matches_walk
    (ErrVal.node "r" "d" (ErrVal.node "a" "da" (ErrVal.leaf "b" "db")))).1 _ rfl
  have h2 := (written_chain_matches_walk (ErrVal.leaf "x" "y")).2 rfl
  exact ⟨h1.1, h2.1, h2.2.trans (by decide)⟩

/-- Claim C1: for every error whose cause chain has depth at least 2 beyond
the root, the normal-mode render writes a `Caused by:` section whose elements
are numbered consecutively from 0 with no gaps (element `i` of the chain
carries label `i`, via the zip with `List.range`), and in any multi-line cause
text everything after the first line is prefixed with spaces equal in width to
the label, aligning continuation lines under the cause's text rather than
under its numeric label. -/
theorem numbered_section_consecutive_from_zero (e c c2 : ErrVal)
    (h1 : e.source = some c) (h2 : c.source = some c2) :
    render false e = e.display ++ ("\n\nCaused by:" ++
      strJoin (((List.range (chainNew c).length).zip (chainNew c)).map
        (fun p => "\n" ++ numberedBlock p.1 p.2.display))) ∧
    (∀ fp cp a b : String, '\n' ∉ a.data →
      indentWith fp cp (a ++ "\n" ++ b) = fp ++ a ++ "\n" ++ indentWith cp cp b) := by
  constructor
  · have hm : multipleFlag c = true := by
      simp [multipleFlag, h2]
    rw [render_some e c h1, ← List.enum_eq_zip_range]
    simp [elemBody, hm]
  · exact fun fp cp a b h => indentWith_split fp cp a b h

theorem numbered_section_consecutive_from_zero_witness :
    render false (ErrVal.node "db error" "dr"
        (ErrVal.node "connection reset" "d0" (ErrVal.leaf "socket closed" "d1")))
      = "db error\n\nCaused by:\n0: connection reset\n1: socket closed" ∧
    indentWith "2: " "   " ("line A" ++ "\n" ++ "line B")
      = "2: " ++ "line A" ++ "\n" ++ indentWith "   " "   " "line B" := by
  have h := numbered_section_consecutive_from_zero
    (ErrVal.node "db error" "dr"
      (ErrVal.node "connection reset" "d0" (ErrVal.leaf "socket closed" "d1")))
    (ErrVal.node "connection reset" "d0" (ErrVal.leaf "socket closed" "d1"))
    (ErrVal.leaf "socket closed" "d1") rfl rfl
  exact ⟨h.1.trans (by decide), h.2 "2: " "   " "line A" "line B" (by decide)⟩

/-- Claim C6: the unnumbered and continuation indent width is fixed at four
spaces, a numbered element's label width is the digit count of its index plus
the two characters of the literal colon-space, and concretely a two-line cause
text at index 2 renders with first line `2: line A` and second line `   line B`,
the three leading spaces matching the label's width; the same shape appears in
the full normal-mode render of a depth-3 chain. -/
theorem indent_widths_and_label_alignment :
    (∀ n : Nat, (numLabel n).length = (toString n).length + 2) ∧
    (∀ s : String, plainBlock s = joinLines ((lines s).map (fun t => spaces 4 ++ t))) ∧
    (spaces 4).length = 4 ∧
    numberedBlock 2 "line A\nline B" = "2: line A\n   line B" ∧
    render false (ErrVal.node "root" "dr" (ErrVal.node "c0" "d0"
        (ErrVal.node "c1" "d1" (ErrVal.leaf "line A\nline B" "d2"))))
      = "root\n\nCaused by:\n0: c0\n1: c1\n2: line A\n   line B" := by
  refine ⟨?_, ?_, by decide, by decide, by decide⟩
  · intro n
    rw [numLabel, String.length_append]
    rfl
  · intro s
    simp [plainBlock, indentWith, indentLines_same]

/-- Claim C10: in normal mode each chain element's text is preceded by exactly
one newline and nothing is written after the final element's text: the report
equals the root text (when there are no causes) or the header plus the join of
blocks each of the form newline-then-element-body, it ends with the final
element's block, that block ends exactly as the last line of the final
element's display text ends, and when that text has no newline the report ends
with the display text itself — no trailing newline is ever appended. -/
theorem report_no_trailing_newline (e : ErrVal) :
    (e.source = none → render false e = e.display) ∧
    (∀ c, e.source = some c →
      render false e = e.display ++ ("\n\nCaused by:" ++
        strJoin ((chainNew c).enum.map (fun p => "\n" ++ elemBody c p))) ∧
      ∃ pre t lst, (chainNew c).getLast? = some lst ∧
        render false e = pre ++ ("\n" ++ (t ++ lastLine lst.display)) ∧
        ('\n' ∉ lst.display.data →
          render false e = pre ++ ("\n" ++ (t ++ lst.display)))) := by
  refine ⟨render_none e, ?_⟩
  intro c h
  refine ⟨render_some e c h, ?_⟩
  obtain ⟨pre0, lst, hlst, hjoin⟩ := strJoin_enum_last
    (fun p => "\n" ++ elemBody c p) (chainNew c) (chainNew_ne_nil c)
  obtain ⟨t, ht⟩ : ∃ t, elemBody c ((chainNew c).length - 1, lst)
      = t ++ lastLine lst.display := by
    cases hm : multipleFlag c with
    | false =>
      simpa [elemBody, hm, plainBlock] using
        indentWith_ends_with_lastLine (spaces 4) (spaces 4) lst.display
    | true =>
      simpa [elemBody, hm, numberedBlock] using
        indentWith_ends_with_lastLine (numLabel ((chainNew c).length - 1))
          (spaces (numLabel ((chainNew c).length - 1)).length) lst.display
  refine ⟨e.display ++ ("\n\nCaused by:" ++ pre0), t, lst, hlst, ?_, ?_⟩
  · rw [render_some e c h, hjoin, ht]
    simp [String.append_assoc]
  · intro hnl
    rw [render_some e c h, hjoin, ht, lastLine_no_newline lst.display hnl]
    simp [String.append_assoc]

theorem report_no_trailing_newline_witness :
    render false (ErrVal.node "r" "d" (ErrVal.leaf "b" "db"))
      = "r\n\nCaused by:\n    b" ∧
    render false (ErrVal.leaf "x" "y") = "x" := by
  have h1 := ((report_no_trailing_newline
    (ErrVal.node "r" "d" (ErrVal.leaf "b" "db"))).2 (ErrVal.leaf "b" "db") rfl).1
  have h2 := (report_no_trailing_newline (ErrVal.leaf "x" "y")).1 rfl
  exact ⟨h1.trans (by decide), h2.trans (by decide)⟩

/-- Claim C7: for every error, mode and sink, when no write fails the render
returns success having appended exactly the full report to the sink, and when
a write fails the render returns the sink's own error value unchanged at the
first failing write, having performed no further writes: the output at the
failure point is the concatenation of a prefix of the report's write chunks. -/
theorem render_write_failure_propagation {ε : Type} (alternate : Bool) (e : ErrVal)
    (sk : Sink ε) :
    (sk.failAt = none → renderSink alternate e sk =
      Except.ok ⟨sk.out ++ render alternate e,
        sk.count + (writeChunks alternate e).length, none, sk.errVal⟩) ∧
    (∀ v p, renderSink alternate e sk = Except.error (v, p) →
      v = sk.errVal ∧ ∃ j, p = sk.out ++ strJoin (List.take j (writeChunks alternate e))) := by
  constructor
  · intro h
    rw [renderSink_eq_processChunks, processChunks_ok _ _ h, strJoin_writeChunks]
  · intro v p herr
    rw [renderSink_eq_processChunks] at herr
    exact processChunks_error _ _ _ _ herr

theorem render_write_failure_propagation_witness :
    renderSink false (ErrVal.node "a" "d" (ErrVal.leaf "b" "db"))
        (⟨"", 0, none, 7⟩ : Sink Nat)
      = Except.ok ⟨"a\n\nCaused by:\n    b", 4, none, 7⟩ ∧
    (7 : Nat) = (⟨"", 0, some 1, 7⟩ : Sink Nat).errVal ∧
    ∃ j, "a" = (⟨"", 0, some 1, 7⟩ : Sink Nat).out ++
      strJoin (List.take j (writeChunks false (ErrVal.node "a" "d" (ErrVal.leaf "b" "db")))) := by
  have h1 := (render_write_failure_propagation false
    (ErrVal.node "a" "d" (ErrVal.leaf "b" "db")) (⟨"", 0, none, 7⟩ : Sink Nat)).1 rfl
  have h2 := (render_write_failure_propagation false
    (ErrVal.node "a" "d" (ErrVal.leaf "b" "db")) (⟨"", 0, some 1, 7⟩ : Sink Nat)).2
    7 "a" (by rfl)
  exact ⟨h1.trans (by rfl), h2⟩
